import Mathlib

/-!
Verification of the ValuCompany data-integration pipeline
(`data_integration.py`): currency conversion, private-record
normalization, benchmark normalization, the industry left join with
derived delta metrics, and the data-quality validator.

Numeric values are modelled as exact rationals; pandas/numpy float
results that can be non-finite (the unguarded divisions and any
arithmetic over possibly-missing columns) are modelled by `PFloat`,
rationals extended with `inf`, `neginf` and `nan`.  As in pandas, a
missing cell of a numeric column is `nan`, and `isnull` holds exactly
for `nan`.
-/

namespace ValuCompany

/-- Round a rational to the nearest integer, ties to even — the rounding
mode used by numpy/pandas `.round`. -/
def roundHalfEven (x : ℚ) : ℤ :=
  let f : ℤ := ⌊x⌋
  let r : ℚ := x - f
  if r < 1/2 then f
  else if 1/2 < r then f + 1
  else if f % 2 = 0 then f else f + 1

/-- `.round(2)`: round to two decimal places, ties to even. -/
def round2 (x : ℚ) : ℚ := (roundHalfEven (100 * x) : ℚ) / 100

/-- A rational carrying at most two decimal places. -/
def IsRounded2 (q : ℚ) : Prop := ∃ z : ℤ, q = (z : ℚ) / 100

/-- Pandas numeric cell: a finite rational, `±∞`, or `nan`.  `nan` also
encodes a missing cell, exactly as pandas stores missing float data. -/
inductive PFloat where
  | num : ℚ → PFloat
  | inf : PFloat
  | neginf : PFloat
  | nan : PFloat
  deriving DecidableEq, Repr

/-- `pd.isnull` on a numeric cell: true exactly for `nan`. -/
def PFloat.isnull : PFloat → Bool
  | .nan => true
  | _ => false

/-- IEEE-style subtraction on pandas cells. -/
def PFloat.sub : PFloat → PFloat → PFloat
  | .nan, _ => .nan
  | _, .nan => .nan
  | .num a, .num b => .num (a - b)
  | .num _, .inf => .neginf
  | .num _, .neginf => .inf
  | .inf, .num _ => .inf
  | .inf, .neginf => .inf
  | .inf, .inf => .nan
  | .neginf, .num _ => .neginf
  | .neginf, .inf => .neginf
  | .neginf, .neginf => .nan

/-- Multiplication by the positive constant 100 on pandas cells. -/
def PFloat.mul100 : PFloat → PFloat
  | .num a => .num (100 * a)
  | .inf => .inf
  | .neginf => .neginf
  | .nan => .nan

/-- `.round(2)` on pandas cells: non-finite values are unchanged. -/
def PFloat.round2P : PFloat → PFloat
  | .num a => .num (round2 a)
  | x => x

/-- IEEE float division of two finite values: division by zero yields
`±∞` (or `nan` for `0/0`) instead of raising, exactly as pandas/numpy
evaluate `a / b`. -/
def floatDiv (a b : ℚ) : PFloat :=
  if b = 0 then
    if a = 0 then .nan
    else if 0 < a then .inf
    else .neginf
  else .num (a / b)

/-- Raw private-market row (schema of `simulate_private_market_data`). -/
structure PrivateRecord where
  company_name : String
  industry : String
  revenue_local : ℚ
  ebitda_local : ℚ
  valuation_multiple : ℚ
  country : String
  fiscal_year : ℤ
  currency : String
  deriving DecidableEq, Repr

/-- Raw industry benchmark row. -/
structure BenchmarkRecord where
  industry : String
  average_margin : ℚ
  sector_growth_rate : ℚ
  average_valuation_multiple : ℚ
  market_size_billions : ℚ
  deriving DecidableEq, Repr

/-- The pipeline's static `currency_rates` table. -/
def currency_rates (country : String) : Option ℚ :=
  if country = "Germany" then some (107/100)
  else if country = "USA" then some 1
  else if country = "India" then some (12/1000)
  else if country = "UK" then some (121/100)
  else if country = "Brazil" then some (20/100)
  else none

/-- `convert_currency`: `self.currency_rates.get(country, 1.0)` then
`amount * rate`. -/
def convert_currency (amount : ℚ) (country : String) : ℚ :=
  amount * (currency_rates country).getD 1

/-- Output schema of `normalize_private_data` (the eight selected
columns, in order). -/
structure NormalizedPrivateRecord where
  company_name : String
  industry : String
  country : String
  fiscal_year : ℤ
  revenue : ℚ
  ebitda : ℚ
  ebitda_margin : PFloat
  valuation_multiple : ℚ
  deriving DecidableEq, Repr

/-- Row-wise body of `normalize_private_data`: convert `revenue_local`
and `ebitda_local` via `convert_currency`, round to 2 decimals, compute
`ebitda_margin = ((ebitda / revenue) * 100).round(2)` with the division
left unguarded (IEEE semantics), round `valuation_multiple`. -/
def normalizeRecord (r : PrivateRecord) : NormalizedPrivateRecord :=
  let revenue := round2 (convert_currency r.revenue_local r.country)
  let ebitda := round2 (convert_currency r.ebitda_local r.country)
  { company_name := r.company_name
    industry := r.industry
    country := r.country
    fiscal_year := r.fiscal_year
    revenue := revenue
    ebitda := ebitda
    ebitda_margin := PFloat.round2P (PFloat.mul100 (floatDiv ebitda revenue))
    valuation_multiple := round2 r.valuation_multiple }

/-- `normalize_private_data`: the row-wise transform over the frame. -/
def normalize_private_data (df : List PrivateRecord) : List NormalizedPrivateRecord :=
  df.map normalizeRecord

/-- `normalize_benchmark_data`: round the four numeric columns. -/
def normalize_benchmark_data (df : List BenchmarkRecord) : List BenchmarkRecord :=
  df.map fun b =>
    { industry := b.industry
      average_margin := round2 b.average_margin
      sector_growth_rate := round2 b.sector_growth_rate
      average_valuation_multiple := round2 b.average_valuation_multiple
      market_size_billions := round2 b.market_size_billions }

/-- One row of the merged frame produced by `integrate_data`: the eight
private columns, the four benchmark columns (nan when the left join
found no match), the four metadata columns, and the two deltas. -/
structure IntegratedRecord where
  company_name : String
  industry : String
  country : String
  fiscal_year : ℤ
  revenue : ℚ
  ebitda : ℚ
  ebitda_margin : PFloat
  valuation_multiple : ℚ
  average_margin : PFloat
  sector_growth_rate : PFloat
  average_valuation_multiple : PFloat
  market_size_billions : PFloat
  data_source : String
  currency : String
  units : String
  last_updated : String
  valuation_vs_sector_avg : PFloat
  margin_vs_sector_avg : PFloat
  deriving DecidableEq, Repr

/-- Number of columns of the integrated frame (`df.shape[1]`). -/
def numCols : ℕ := 18

/-- Benchmark rows matching a private row's industry — the rows
`pd.merge(..., on='industry', how='left')` pairs with it. -/
def benchMatches (p : NormalizedPrivateRecord) (B : List BenchmarkRecord) :
    List BenchmarkRecord :=
  B.filter fun b => b.industry = p.industry

/-- One output row of `integrate_data` for private row `p` and an
optional benchmark match: benchmark columns are `nan` when unmatched,
metadata is stamped, and the two deltas are computed column-wise with
`.round(2)` (so a `nan` side propagates to a `nan` delta). -/
def integrateRow (now : String) (p : NormalizedPrivateRecord)
    (ob : Option BenchmarkRecord) : IntegratedRecord :=
  let am : PFloat := match ob with
    | some b => .num b.average_margin
    | none => .nan
  let sg : PFloat := match ob with
    | some b => .num b.sector_growth_rate
    | none => .nan
  let avm : PFloat := match ob with
    | some b => .num b.average_valuation_multiple
    | none => .nan
  let ms : PFloat := match ob with
    | some b => .num b.market_size_billions
    | none => .nan
  { company_name := p.company_name
    industry := p.industry
    country := p.country
    fiscal_year := p.fiscal_year
    revenue := p.revenue
    ebitda := p.ebitda
    ebitda_margin := p.ebitda_margin
    valuation_multiple := p.valuation_multiple
    average_margin := am
    sector_growth_rate := sg
    average_valuation_multiple := avm
    market_size_billions := ms
    data_source := "Integrated_Private_and_Benchmark"
    currency := "USD"
    units := "millions"
    last_updated := now
    valuation_vs_sector_avg := PFloat.round2P (PFloat.sub (.num p.valuation_multiple) avm)
    margin_vs_sector_avg := PFloat.round2P (PFloat.sub p.ebitda_margin am) }

/-- The block of merged rows one private row contributes: one row per
benchmark match, or a single all-`nan`-benchmark row when unmatched
(standard left-outer-join semantics of `pd.merge(..., how='left')`). -/
def integrateOne (now : String) (B : List BenchmarkRecord)
    (p : NormalizedPrivateRecord) : List IntegratedRecord :=
  if benchMatches p B = [] then [integrateRow now p none]
  else (benchMatches p B).map fun b => integrateRow now p (some b)

/-- `integrate_data`: the left join on `industry` followed by metadata
stamping and the two delta columns. -/
def integrate_data (now : String) (P : List NormalizedPrivateRecord)
    (B : List BenchmarkRecord) : List IntegratedRecord :=
  P.flatMap (integrateOne now B)

/-- The single merged row a private row yields when its industry has at
most one benchmark match (the unique-benchmark regime of the join). -/
def joinRow (now : String) (B : List BenchmarkRecord)
    (p : NormalizedPrivateRecord) : IntegratedRecord :=
  match benchMatches p B with
  | [] => integrateRow now p none
  | b :: _ => integrateRow now p (some b)

/-- `Series.duplicated().sum()`: walk the column front to back with the
set of values already seen; every re-occurrence counts 1. -/
def dupCountAux [DecidableEq α] : List α → List α → ℕ
  | _, [] => 0
  | seen, x :: xs => (if x ∈ seen then 1 else 0) + dupCountAux (x :: seen) xs

/-- `df['company_name'].duplicated().sum()` on a column given as a list. -/
def duplicatedCount [DecidableEq α] (l : List α) : ℕ := dupCountAux [] l

/-- Number of missing (`nan`) cells in one integrated row; only the
seven float columns can be missing. -/
def rowMissing (r : IntegratedRecord) : ℕ :=
  (if r.ebitda_margin.isnull then 1 else 0)
  + (if r.average_margin.isnull then 1 else 0)
  + (if r.sector_growth_rate.isnull then 1 else 0)
  + (if r.average_valuation_multiple.isnull then 1 else 0)
  + (if r.market_size_billions.isnull then 1 else 0)
  + (if r.valuation_vs_sector_avg.isnull then 1 else 0)
  + (if r.margin_vs_sector_avg.isnull then 1 else 0)

/-- `df.isnull().sum().sum()` over the integrated frame. -/
def missingCells (df : List IntegratedRecord) : ℕ :=
  (df.map rowMissing).sum

/-- `((total_cells - missing_cells) / total_cells * 100).round(2)` —
the quality-score computation of `validate_data`, with the division left
unguarded: `totalCells = 0` divides zero by zero, which float semantics
turn into `nan` rather than an exception. -/
def data_quality_score (totalCells missingCells : ℕ) : PFloat :=
  PFloat.round2P (PFloat.mul100 (floatDiv ((totalCells : ℚ) - missingCells) totalCells))

/-- The validation dictionary of `validate_data` (the fields the
specification constrains). -/
structure ValidationReport where
  total_records : ℕ
  duplicate_companies : ℕ
  negative_revenue : ℕ
  negative_ebitda : ℕ
  data_quality_score : PFloat
  deriving DecidableEq, Repr

/-- `validate_data` over the integrated frame:
`total_cells = df.shape[0] * df.shape[1]`. -/
def validate_data (df : List IntegratedRecord) : ValidationReport :=
  { total_records := df.length
    duplicate_companies := duplicatedCount (df.map fun r => r.company_name)
    negative_revenue := (df.filter fun r => r.revenue < 0).length
    negative_ebitda := (df.filter fun r => r.ebitda < 0).length
    data_quality_score := data_quality_score (df.length * numCols) (missingCells df) }

/-- The Company_A/Germany scenario row of the specification. -/
def companyARecord : PrivateRecord :=
  { company_name := "Company_A", industry := "Technology", revenue_local := 100,
    ebitda_local := 20, valuation_multiple := 10, country := "Germany",
    fiscal_year := 2024, currency := "EUR" }

/-- A row whose converted-and-rounded revenue is 0 with positive ebitda. -/
def zeroRevRecord : PrivateRecord :=
  { company_name := "ZeroRev", industry := "Technology", revenue_local := 0,
    ebitda_local := 20, valuation_multiple := 10, country := "USA",
    fiscal_year := 2024, currency := "USD" }

/-- A row whose converted-and-rounded revenue is 0 with negative ebitda. -/
def negEbitdaRecord : PrivateRecord :=
  { company_name := "NegEbitda", industry := "Energy", revenue_local := 0,
    ebitda_local := -5, valuation_multiple := 8, country := "USA",
    fiscal_year := 2024, currency := "USD" }

/-- A normalized Technology row used to instantiate the join theorems. -/
def normTechRecord : NormalizedPrivateRecord :=
  { company_name := "Company_A", industry := "Technology", country := "Germany",
    fiscal_year := 2024, revenue := 107, ebitda := 107/5,
    ebitda_margin := .num 20, valuation_multiple := 10 }

/-- A normalized row whose industry has no benchmark match below. -/
def normEstateRecord : NormalizedPrivateRecord :=
  { company_name := "Company_B", industry := "Real Estate", country := "USA",
    fiscal_year := 2024, revenue := 50, ebitda := 10,
    ebitda_margin := .num 20, valuation_multiple := 8 }

/-- The Technology benchmark row of the specification's scenario. -/
def techBenchmark : BenchmarkRecord :=
  { industry := "Technology", average_margin := 18, sector_growth_rate := 5,
    average_valuation_multiple := 9, market_size_billions := 100 }

/-- A second Technology benchmark row, for fan-out instantiation. -/
def techBenchmark2 : BenchmarkRecord :=
  { industry := "Technology", average_margin := 25, sector_growth_rate := 3,
    average_valuation_multiple := 11, market_size_billions := 40 }

/-! ### Rounding helpers -/

theorem roundHalfEven_intCast (z : ℤ) : roundHalfEven (z : ℚ) = z := by
  unfold roundHalfEven
  simp

theorem round2_eq (x : ℚ) (z : ℤ) (h : 100 * x = (z : ℚ)) :
    round2 x = (z : ℚ) / 100 := by
  unfold round2
  rw [h, roundHalfEven_intCast]

theorem isRounded2_round2 (x : ℚ) : IsRounded2 (round2 x) :=
  ⟨roundHalfEven (100 * x), rfl⟩

theorem margin_num_isRounded2 (a b q : ℚ)
    (h : PFloat.round2P (PFloat.mul100 (floatDiv a b)) = .num q) :
    IsRounded2 q := by
  unfold floatDiv at h
  split at h
  · split at h
    · simp [PFloat.mul100, PFloat.round2P] at h
    · split at h
      · simp [PFloat.mul100, PFloat.round2P] at h
      · simp [PFloat.mul100, PFloat.round2P] at h
  · simp only [PFloat.mul100, PFloat.round2P, PFloat.num.injEq] at h
    exact h ▸ isRounded2_round2 _

/-! ### C7 — unmapped-country fallback of `convert_currency` -/

/-- C7: for every amount and every country absent from the static rate
table, `convert_currency` returns the amount unchanged (rate-1.0
fallback, no error path); for a mapped country it returns
`amount * rate`. -/
theorem claim_C7_convert_fallback :
    (∀ (amount : ℚ) (country : String), currency_rates country = none →
      convert_currency amount country = amount)
    ∧ ∀ (amount : ℚ) (country : String) (r : ℚ), currency_rates country = some r →
      convert_currency amount country = amount * r := by
  constructor
  · intro a c h
    simp [convert_currency, h]
  · intro a c r h
    simp [convert_currency, h]

theorem claim_C7_witness :
    convert_currency 5 "France" = 5 ∧
    convert_currency 200 "Germany" = 200 * (107/100) :=
  ⟨claim_C7_convert_fallback.1 5 "France" (by simp [currency_rates]),
   claim_C7_convert_fallback.2 200 "Germany" (107/100) (by simp [currency_rates])⟩

/-! ### C8 — linearity of `convert_currency` -/

/-- C8: currency conversion is linear in the amount — in exact rational
arithmetic, `convert(a + b, c) = convert(a, c) + convert(b, c)`. -/
theorem claim_C8_convert_linear (a b : ℚ) (c : String) :
    convert_currency (a + b) c = convert_currency a c + convert_currency b c := by
  unfold convert_currency
  ring

theorem claim_C8_witness :
    convert_currency (3 + 4) "Germany" =
      convert_currency 3 "Germany" + convert_currency 4 "Germany" :=
  claim_C8_convert_linear 3 4 "Germany"

/-! ### C6 — normalizer rounding and the Germany scenario -/

/-- C6: every normalized record's revenue, ebitda and
valuation_multiple carry exactly two decimal places (converted to USD
before rounding), any finite ebitda_margin carries two decimal places,
and the documented Company_A/Germany row normalizes to revenue 107.00,
ebitda 21.40, margin 20.00. -/
theorem claim_C6_normalize_rounding :
    (∀ r : PrivateRecord,
      IsRounded2 (normalizeRecord r).revenue
      ∧ IsRounded2 (normalizeRecord r).ebitda
      ∧ IsRounded2 (normalizeRecord r).valuation_multiple
      ∧ (normalizeRecord r).revenue = round2 (convert_currency r.revenue_local r.country)
      ∧ (normalizeRecord r).ebitda = round2 (convert_currency r.ebitda_local r.country)
      ∧ ∀ q : ℚ, (normalizeRecord r).ebitda_margin = .num q → IsRounded2 q)
    ∧ (normalizeRecord companyARecord).revenue = 107
    ∧ (normalizeRecord companyARecord).ebitda = 21.4
    ∧ (normalizeRecord companyARecord).ebitda_margin = .num 20 := by
  refine ⟨fun r => ⟨isRounded2_round2 _, isRounded2_round2 _, isRounded2_round2 _,
    rfl, rfl, fun q h => margin_num_isRounded2 _ _ q h⟩, ?_, ?_, ?_⟩
  · show round2 (convert_currency 100 "Germany") = 107
    have h : convert_currency 100 "Germany" = 107 := by
      simp [convert_currency, currency_rates]
      norm_num
    rw [h, round2_eq 107 10700 (by norm_num)]
    norm_num
  · show round2 (convert_currency 20 "Germany") = 21.4
    have h : convert_currency 20 "Germany" = 107/5 := by
      simp [convert_currency, currency_rates]
      norm_num
    rw [h, round2_eq (107/5) 2140 (by norm_num)]
    norm_num
  · show PFloat.round2P (PFloat.mul100 (floatDiv
      (round2 (convert_currency 20 "Germany")) (round2 (convert_currency 100 "Germany")))) = .num 20
    have h20 : convert_currency 20 "Germany" = 107/5 := by
      simp [convert_currency, currency_rates]
      norm_num
    have h100 : convert_currency 100 "Germany" = 107 := by
      simp [convert_currency, currency_rates]
      norm_num
    rw [h20, h100, round2_eq (107/5) 2140 (by norm_num), round2_eq 107 10700 (by norm_num)]
    have hden : ((10700 : ℤ) : ℚ) / 100 ≠ 0 := by norm_num
    rw [floatDiv, if_neg hden]
    simp only [PFloat.mul100, PFloat.round2P, PFloat.num.injEq]
    rw [round2_eq _ 2000 (by norm_num)]
    norm_num

theorem claim_C6_witness : IsRounded2 (20 : ℚ) :=
  (claim_C6_normalize_rounding.1 companyARecord).2.2.2.2.2 20
    claim_C6_normalize_rounding.2.2.2

/-! ### C2 — zero-revenue margin is IEEE infinity, not a null sentinel -/

/-- C2 counterexample: a record whose converted-and-rounded revenue is 0
gets `ebitda_margin = +∞` — a value `pd.isnull` does not flag — not a
null/NaN sentinel, refuting the claim as stated. -/
theorem claim_C2_counterexample :
    (normalizeRecord zeroRevRecord).revenue = 0
    ∧ (normalizeRecord zeroRevRecord).ebitda_margin = PFloat.inf
    ∧ PFloat.inf.isnull = false ∧ PFloat.inf ≠ PFloat.nan := by
  have h0 : convert_currency 0 "USA" = 0 := by
    simp [convert_currency]
  have h20 : convert_currency 20 "USA" = 20 := by
    simp [convert_currency, currency_rates]
  have hr : round2 (convert_currency 0 "USA") = 0 := by
    rw [h0, round2_eq 0 0 (by norm_num)]
    norm_num
  have he : round2 (convert_currency 20 "USA") = 20 := by
    rw [h20, round2_eq 20 2000 (by norm_num)]
    norm_num
  refine ⟨hr, ?_, rfl, by simp⟩
  show PFloat.round2P (PFloat.mul100 (floatDiv
    (round2 (convert_currency 20 "USA")) (round2 (convert_currency 0 "USA")))) = PFloat.inf
  rw [hr, he]
  simp [floatDiv, PFloat.mul100, PFloat.round2P]

/-- C2 (amended): when the converted-and-rounded revenue is 0, the
unguarded division makes `ebitda_margin` a deterministic IEEE extended
value — `+∞` for positive ebitda, `−∞` for negative ebitda, `NaN` for
ebitda 0 — and no exception propagates; the value is not a null/NaN
sentinel in the positive and negative cases. -/
theorem claim_C2_margin_ieee (r : PrivateRecord)
    (h : (normalizeRecord r).revenue = 0) :
    (normalizeRecord r).ebitda_margin =
      (if (normalizeRecord r).ebitda = 0 then PFloat.nan
       else if 0 < (normalizeRecord r).ebitda then PFloat.inf else PFloat.neginf) := by
  simp only [normalizeRecord] at h ⊢
  rw [floatDiv, if_pos h]
  by_cases he : round2 (convert_currency r.ebitda_local r.country) = 0
  · simp only [if_pos he]
    rfl
  · simp only [if_neg he]
    by_cases hp : 0 < round2 (convert_currency r.ebitda_local r.country)
    · simp only [if_pos hp]
      rfl
    · simp only [if_neg hp]
      rfl

theorem claim_C2_witness :
    (normalizeRecord negEbitdaRecord).ebitda_margin =
      (if (normalizeRecord negEbitdaRecord).ebitda = 0 then PFloat.nan
       else if 0 < (normalizeRecord negEbitdaRecord).ebitda
       then PFloat.inf else PFloat.neginf) :=
  claim_C2_margin_ieee _ (by
    show round2 (convert_currency 0 "USA") = 0
    have h0 : convert_currency 0 "USA" = 0 := by simp [convert_currency]
    rw [h0, round2_eq 0 0 (by norm_num)]
    norm_num)

/-! ### Join structure helpers -/

theorem PFloat.sub_nan (x : PFloat) : PFloat.sub x .nan = .nan := by
  cases x <;> rfl

theorem integrateOne_length (now : String) (B : List BenchmarkRecord)
    (p : NormalizedPrivateRecord) :
    (integrateOne now B p).length = max (benchMatches p B).length 1 := by
  unfold integrateOne
  split
  · simp [*]
  · next h =>
    have hpos : 0 < (benchMatches p B).length := List.length_pos.mpr h
    simp only [List.length_map]
    omega

theorem integrate_length (now : String) (P : List NormalizedPrivateRecord)
    (B : List BenchmarkRecord) :
    (integrate_data now P B).length
      = (P.map fun p => max (benchMatches p B).length 1).sum := by
  induction P with
  | nil => rfl
  | cons p ps ih =>
    simp only [integrate_data, List.flatMap_cons, List.length_append, List.map_cons,
      List.sum_cons, integrateOne_length]
    unfold integrate_data at ih
    omega

/-! ### C1 — left-outer-join semantics of `integrate_data` -/

/-- C1: the join keyed on industry is a left outer join — the output is
at least as long as the private input and exactly as long when every
private industry has at most one benchmark match; an unmatched private
row still appears, with all four benchmark columns and both deltas
`nan` (null); and a row with matches fans out to one output row per
match, never a silently picked single one. -/
theorem claim_C1_left_join :
    (∀ (now : String) (P : List NormalizedPrivateRecord) (B : List BenchmarkRecord),
      P.length ≤ (integrate_data now P B).length)
    ∧ (∀ (now : String) (P : List NormalizedPrivateRecord) (B : List BenchmarkRecord),
      (∀ p ∈ P, (benchMatches p B).length ≤ 1) →
      (integrate_data now P B).length = P.length)
    ∧ (∀ (now : String) (P : List NormalizedPrivateRecord) (B : List BenchmarkRecord)
        (p : NormalizedPrivateRecord), p ∈ P → benchMatches p B = [] →
      integrateRow now p none ∈ integrate_data now P B
      ∧ (integrateRow now p none).average_margin = .nan
      ∧ (integrateRow now p none).sector_growth_rate = .nan
      ∧ (integrateRow now p none).average_valuation_multiple = .nan
      ∧ (integrateRow now p none).market_size_billions = .nan
      ∧ (integrateRow now p none).valuation_vs_sector_avg = .nan
      ∧ (integrateRow now p none).margin_vs_sector_avg = .nan)
    ∧ (∀ (now : String) (P : List NormalizedPrivateRecord) (B : List BenchmarkRecord)
        (p : NormalizedPrivateRecord), p ∈ P →
      ∀ b ∈ benchMatches p B, integrateRow now p (some b) ∈ integrate_data now P B)
    ∧ (∀ (now : String) (B : List BenchmarkRecord) (p : NormalizedPrivateRecord),
      1 ≤ (benchMatches p B).length →
      integrateOne now B p = (benchMatches p B).map fun b => integrateRow now p (some b)) := by
  refine ⟨?_, ?_, ?_, ?_, ?_⟩
  · intro now P B
    rw [integrate_length]
    induction P with
    | nil => simp
    | cons p ps ih =>
      simp only [List.map_cons, List.sum_cons, List.length_cons]
      omega
  · intro now P B h
    rw [integrate_length]
    induction P with
    | nil => simp
    | cons p ps ih =>
      have h1 := h p (List.mem_cons_self p ps)
      have h2 : (ps.map fun q => max (benchMatches q B).length 1).sum = ps.length :=
        ih fun q hq => h q (List.mem_cons_of_mem p hq)
      simp only [List.map_cons, List.sum_cons, List.length_cons]
      omega
  · intro now P B p hp hnone
    refine ⟨List.mem_flatMap.mpr ⟨p, hp, ?_⟩, rfl, rfl, rfl, rfl, rfl, ?_⟩
    · unfold integrateOne
      rw [if_pos hnone]
      exact List.mem_singleton_self _
    · show PFloat.round2P (PFloat.sub p.ebitda_margin .nan) = .nan
      rw [PFloat.sub_nan]
      rfl
  · intro now P B p hp b hb
    refine List.mem_flatMap.mpr ⟨p, hp, ?_⟩
    unfold integrateOne
    rw [if_neg (List.ne_nil_of_mem hb)]
    exact List.mem_map_of_mem _ hb
  · intro now B p h
    unfold integrateOne
    rw [if_neg (List.ne_nil_of_length_pos h)]

theorem claim_C1_witness :
    ([normTechRecord].length ≤ (integrate_data "t" [normTechRecord] [techBenchmark]).length)
    ∧ (integrate_data "t" [normTechRecord] [techBenchmark]).length = [normTechRecord].length
    ∧ integrateRow "t" normEstateRecord none ∈ integrate_data "t" [normEstateRecord] [techBenchmark]
    ∧ integrateRow "t" normTechRecord (some techBenchmark)
        ∈ integrate_data "t" [normTechRecord] [techBenchmark]
    ∧ integrateOne "t" [techBenchmark, techBenchmark2] normTechRecord
        = (benchMatches normTechRecord [techBenchmark, techBenchmark2]).map
            fun b => integrateRow "t" normTechRecord (some b) :=
  ⟨claim_C1_left_join.1 "t" [normTechRecord] [techBenchmark],
   claim_C1_left_join.2.1 "t" [normTechRecord] [techBenchmark] (by
     intro p hp
     rw [List.mem_singleton] at hp
     subst hp
     simp [benchMatches, normTechRecord, techBenchmark]),
   (claim_C1_left_join.2.2.1 "t" [normEstateRecord] [techBenchmark] normEstateRecord
     (List.mem_singleton_self _) (by simp [benchMatches, normEstateRecord, techBenchmark])).1,
   claim_C1_left_join.2.2.2.1 "t" [normTechRecord] [techBenchmark] normTechRecord
     (List.mem_singleton_self _) techBenchmark
     (by simp [benchMatches, normTechRecord, techBenchmark]),
   claim_C1_left_join.2.2.2.2 "t" [techBenchmark, techBenchmark2] normTechRecord
     (by simp [benchMatches, normTechRecord, techBenchmark, techBenchmark2])⟩

/-! ### C4 — delta columns of the integrated rows -/

/-- C4: every integrated row comes from a private row paired with
either no match or one benchmark match; on a matched row
`valuation_vs_sector_avg` is `round2` of multiple minus sector average
and `margin_vs_sector_avg` is `round2` of margin minus sector margin,
while on an unmatched row both deltas are `nan` (null). -/
theorem claim_C4_deltas :
    (∀ (now : String) (P : List NormalizedPrivateRecord) (B : List BenchmarkRecord)
       (row : IntegratedRecord), row ∈ integrate_data now P B →
      ∃ p ∈ P, (benchMatches p B = [] ∧ row = integrateRow now p none)
        ∨ ∃ b ∈ benchMatches p B, row = integrateRow now p (some b))
    ∧ (∀ (now : String) (p : NormalizedPrivateRecord) (b : BenchmarkRecord),
      (integrateRow now p (some b)).valuation_vs_sector_avg
        = .num (round2 (p.valuation_multiple - b.average_valuation_multiple))
      ∧ ∀ q : ℚ, p.ebitda_margin = .num q →
        (integrateRow now p (some b)).margin_vs_sector_avg
          = .num (round2 (q - b.average_margin)))
    ∧ (∀ (now : String) (p : NormalizedPrivateRecord),
      (integrateRow now p none).valuation_vs_sector_avg = .nan
      ∧ (integrateRow now p none).margin_vs_sector_avg = .nan
      ∧ (integrateRow now p none).average_margin.isnull = true) := by
  refine ⟨?_, ?_, ?_⟩
  · intro now P B row hrow
    obtain ⟨p, hp, hmem⟩ := List.mem_flatMap.mp hrow
    refine ⟨p, hp, ?_⟩
    unfold integrateOne at hmem
    by_cases hnone : benchMatches p B = []
    · rw [if_pos hnone, List.mem_singleton] at hmem
      exact Or.inl ⟨hnone, hmem⟩
    · rw [if_neg hnone] at hmem
      obtain ⟨b, hb, hrow'⟩ := List.mem_map.mp hmem
      exact Or.inr ⟨b, hb, hrow'.symm⟩
  · intro now p b
    refine ⟨rfl, fun q hq => ?_⟩
    show PFloat.round2P (PFloat.sub p.ebitda_margin (.num b.average_margin))
      = .num (round2 (q - b.average_margin))
    rw [hq]
    rfl
  · intro now p
    refine ⟨rfl, ?_, rfl⟩
    show PFloat.round2P (PFloat.sub p.ebitda_margin .nan) = .nan
    rw [PFloat.sub_nan]
    rfl

theorem claim_C4_witness :
    ((integrateRow "t" normTechRecord (some techBenchmark)).valuation_vs_sector_avg
      = .num (round2 (normTechRecord.valuation_multiple - techBenchmark.average_valuation_multiple)))
    ∧ (integrateRow "t" normTechRecord (some techBenchmark)).margin_vs_sector_avg
      = .num (round2 (20 - techBenchmark.average_margin))
    ∧ ∃ p ∈ [normTechRecord],
        (benchMatches p [techBenchmark] = []
          ∧ integrateRow "t" normTechRecord (some techBenchmark) = integrateRow "t" p none)
        ∨ ∃ b ∈ benchMatches p [techBenchmark],
            integrateRow "t" normTechRecord (some techBenchmark) = integrateRow "t" p (some b) :=
  ⟨(claim_C4_deltas.2.1 "t" normTechRecord techBenchmark).1,
   (claim_C4_deltas.2.1 "t" normTechRecord techBenchmark).2 20 rfl,
   claim_C4_deltas.1 "t" [normTechRecord] [techBenchmark] _
     (by simp [integrate_data, integrateOne, benchMatches, normTechRecord, techBenchmark])⟩

/-! ### Duplicate-counting helpers -/

theorem dupCountAux_add_card [DecidableEq α] (l : List α) :
    ∀ seen : List α, dupCountAux seen l + (l.toFinset \ seen.toFinset).card = l.length := by
  induction l with
  | nil =>
    intro seen
    simp [dupCountAux]
  | cons x xs ih =>
    intro seen
    simp only [dupCountAux, List.toFinset_cons, List.length_cons]
    have ihx := ih (x :: seen)
    rw [List.toFinset_cons] at ihx
    by_cases hx : x ∈ seen
    · have hx' : x ∈ seen.toFinset := List.mem_toFinset.mpr hx
      rw [if_pos hx, Finset.insert_sdiff_of_mem _ hx']
      rw [Finset.insert_eq_self.mpr hx'] at ihx
      omega
    · have hx' : x ∉ seen.toFinset := fun hc => hx (List.mem_toFinset.mp hc)
      rw [if_neg hx, Finset.insert_sdiff_of_not_mem _ hx']
      rw [Finset.sdiff_insert] at ihx
      by_cases hxs : x ∈ xs.toFinset \ seen.toFinset
      · rw [Finset.insert_eq_self.mpr hxs]
        rw [Finset.card_erase_of_mem hxs] at ihx
        have hpos : 0 < (xs.toFinset \ seen.toFinset).card := Finset.card_pos.mpr ⟨x, hxs⟩
        omega
      · rw [Finset.card_insert_of_not_mem hxs]
        rw [Finset.erase_eq_of_not_mem hxs] at ihx
        omega

theorem duplicatedCount_add_card [DecidableEq α] (l : List α) :
    duplicatedCount l + l.toFinset.card = l.length := by
  simpa [duplicatedCount] using dupCountAux_add_card l []

theorem duplicatedCount_add_dedup [DecidableEq α] (l : List α) :
    duplicatedCount l + l.dedup.length = l.length := by
  have h := duplicatedCount_add_card l
  rwa [List.card_toFinset] at h

theorem sum_map_sub_one (ks : List ℕ) (h : ∀ k ∈ ks, 1 ≤ k) :
    (ks.map fun k => k - 1).sum + ks.length = ks.sum := by
  induction ks with
  | nil => rfl
  | cons k ks ih =>
    have h1 := h k (List.mem_cons_self k ks)
    have h2 := ih fun q hq => h q (List.mem_cons_of_mem _ hq)
    simp only [List.map_cons, List.sum_cons, List.length_cons]
    omega

/-! ### C5 — duplicate counting of `validate_data` -/

/-- C5: `duplicate_companies` counts the non-first occurrences of each
company name — each value occurring `k` times contributes `k - 1` —
and `[A, A, B, A]` counts 2. -/
theorem claim_C5_duplicate_count :
    (∀ df : List IntegratedRecord,
      (validate_data df).duplicate_companies
        = duplicatedCount (df.map fun r => r.company_name))
    ∧ (∀ l : List String,
      duplicatedCount l = (l.dedup.map fun a => l.count a - 1).sum)
    ∧ duplicatedCount ["A", "A", "B", "A"] = 2 := by
  refine ⟨fun df => rfl, ?_, by decide⟩
  intro l
  have hcounts : ∀ k ∈ l.dedup.map fun a => l.count a, 1 ≤ k := by
    intro k hk
    obtain ⟨a, ha, rfl⟩ := List.mem_map.mp hk
    exact List.count_pos_iff.mpr (List.mem_dedup.mp ha)
  have h2 := sum_map_sub_one (l.dedup.map fun a => l.count a) hcounts
  rw [List.map_map] at h2
  have h3 : ((fun k => k - 1) ∘ fun a => l.count a) = fun a => l.count a - 1 := rfl
  rw [h3] at h2
  have h4 := List.sum_map_count_dedup_eq_length l
  have h1 := duplicatedCount_add_dedup l
  have h5 : (l.dedup.map fun a => l.count a).length = l.dedup.length :=
    List.length_map _ _
  omega

/-! ### C3 — the data-quality score of `validate_data` -/

/-- C3: the quality score is
`round2((total_cells - missing_cells) / total_cells * 100)` with
`total_cells = rows * columns`; zero missing cells out of a positive
total scores exactly 100.0, an all-missing table scores 0.0, and a
zero-cell table gets the deterministic `nan` — the value pandas
`isnull` flags as null — instead of a division fault. -/
theorem claim_C3_quality_score :
    (∀ df : List IntegratedRecord,
      (validate_data df).data_quality_score
        = data_quality_score (df.length * numCols) (missingCells df))
    ∧ (∀ total missing : ℕ, total ≠ 0 →
      data_quality_score total missing
        = .num (round2 (((total : ℚ) - missing) / total * 100)))
    ∧ (∀ total : ℕ, 0 < total → data_quality_score total 0 = .num 100)
    ∧ (∀ total : ℕ, 0 < total → data_quality_score total total = .num 0)
    ∧ data_quality_score 0 0 = .nan
    ∧ (validate_data ([] : List IntegratedRecord)).data_quality_score = .nan
    ∧ PFloat.nan.isnull = true := by
  have hne : ∀ total : ℕ, total ≠ 0 → ((total : ℚ)) ≠ 0 := by
    intro total h
    exact_mod_cast h
  have hform : ∀ total missing : ℕ, total ≠ 0 →
      data_quality_score total missing
        = .num (round2 (((total : ℚ) - missing) / total * 100)) := by
    intro total missing h
    unfold data_quality_score floatDiv
    rw [if_neg (hne total h)]
    simp only [PFloat.mul100, PFloat.round2P, PFloat.num.injEq]
    ring_nf
  refine ⟨fun df => rfl, hform, ?_, ?_, ?_, ?_, rfl⟩
  · intro total h
    rw [hform total 0 (Nat.pos_iff_ne_zero.mp h)]
    have h1 : ((total : ℚ) - (0 : ℕ)) / total * 100 = 100 := by
      rw [Nat.cast_zero, sub_zero, div_self (hne total (Nat.pos_iff_ne_zero.mp h))]
      ring
    rw [h1, round2_eq 100 10000 (by norm_num)]
    norm_num
  · intro total h
    rw [hform total total (Nat.pos_iff_ne_zero.mp h)]
    have h1 : ((total : ℚ) - total) / total * 100 = 0 := by
      rw [sub_self]
      simp
    rw [h1, round2_eq 0 0 (by norm_num)]
    norm_num
  · simp [data_quality_score, floatDiv, PFloat.mul100, PFloat.round2P]
  · show data_quality_score ((0 : ℕ) * numCols) (missingCells []) = .nan
    simp [data_quality_score, floatDiv, PFloat.mul100, PFloat.round2P, missingCells]

theorem claim_C3_witness :
    data_quality_score 36 0 = .num 100
    ∧ data_quality_score 36 36 = .num 0
    ∧ data_quality_score 4 1 = .num (round2 (((4 : ℚ) - (1 : ℕ)) / 4 * 100)) :=
  ⟨claim_C3_quality_score.2.2.1 36 (by norm_num),
   claim_C3_quality_score.2.2.2.1 36 (by norm_num),
   claim_C3_quality_score.2.1 4 1 (by norm_num)⟩

/-! ### Unique-benchmark join helpers -/

theorem benchMatches_length_le_one (p : NormalizedPrivateRecord) :
    ∀ B : List BenchmarkRecord, (B.map fun b => b.industry).Nodup →
    (benchMatches p B).length ≤ 1 := by
  intro B
  induction B with
  | nil =>
    intro _
    simp [benchMatches]
  | cons b bs ih =>
    intro h
    rw [List.map_cons, List.nodup_cons] at h
    obtain ⟨hb, hbs⟩ := h
    unfold benchMatches
    rw [List.filter_cons]
    by_cases hip : b.industry = p.industry
    · rw [if_pos (by simp [hip])]
      have hnil : (bs.filter fun x => decide (x.industry = p.industry)) = [] := by
        apply List.filter_eq_nil_iff.mpr
        intro x hx
        simp only [decide_eq_true_eq]
        intro hxp
        exact hb (List.mem_map.mpr ⟨x, hx, by rw [hxp, hip]⟩)
      unfold benchMatches at hnil
      rw [hnil]
      simp
    · rw [if_neg (by simp [hip])]
      exact ih hbs

theorem integrateOne_eq_single (now : String) (B : List BenchmarkRecord)
    (p : NormalizedPrivateRecord) (h : (benchMatches p B).length ≤ 1) :
    integrateOne now B p = [joinRow now B p] := by
  unfold integrateOne joinRow
  cases hm : benchMatches p B with
  | nil => simp
  | cons b bs =>
    rw [hm] at h
    simp only [List.length_cons] at h
    have hbs : bs = [] := List.length_eq_zero.mp (by omega)
    subst hbs
    simp

theorem integrate_eq_map_of_nodup (now : String) (B : List BenchmarkRecord)
    (h : (B.map fun b => b.industry).Nodup) (P : List NormalizedPrivateRecord) :
    integrate_data now P B = P.map (joinRow now B) := by
  induction P with
  | nil => rfl
  | cons p ps ih =>
    show integrateOne now B p ++ integrate_data now ps B = _
    rw [ih, integrateOne_eq_single now B p (benchMatches_length_le_one p B h)]
    rfl

theorem joinRow_company_name (now : String) (B : List BenchmarkRecord)
    (p : NormalizedPrivateRecord) :
    (joinRow now B p).company_name = p.company_name := by
  unfold joinRow
  cases benchMatches p B <;> rfl

/-! ### C9 — order and multiplicity preservation -/

/-- C9: normalization yields exactly one output row per input row in
input order, and — when benchmark industries are unique — the left
merge yields exactly one output row per private row, in left-side
order, row `i` being derived from private row `i`. -/
theorem claim_C9_order_preserved :
    (∀ df : List PrivateRecord,
      (normalize_private_data df).length = df.length
      ∧ ∀ (i : ℕ) (h1 : i < (normalize_private_data df).length) (h2 : i < df.length),
        (normalize_private_data df).get ⟨i, h1⟩ = normalizeRecord (df.get ⟨i, h2⟩))
    ∧ ∀ (now : String) (P : List NormalizedPrivateRecord) (B : List BenchmarkRecord),
      (B.map fun b => b.industry).Nodup →
      integrate_data now P B = P.map (joinRow now B)
      ∧ (integrate_data now P B).length = P.length
      ∧ ∀ (i : ℕ) (h1 : i < (integrate_data now P B).length) (h2 : i < P.length),
        (integrate_data now P B).get ⟨i, h1⟩ = joinRow now B (P.get ⟨i, h2⟩)
        ∧ ((integrate_data now P B).get ⟨i, h1⟩).company_name
          = (P.get ⟨i, h2⟩).company_name := by
  constructor
  · intro df
    refine ⟨List.length_map df normalizeRecord, fun i h1 h2 => ?_⟩
    simp [normalize_private_data, List.get_eq_getElem]
  · intro now P B h
    have hmap := integrate_eq_map_of_nodup now B h P
    refine ⟨hmap, by rw [hmap]; exact List.length_map P _, fun i h1 h2 => ?_⟩
    have hget : (integrate_data now P B).get ⟨i, h1⟩ = joinRow now B (P.get ⟨i, h2⟩) := by
      simp only [List.get_eq_getElem, hmap, List.getElem_map]
    exact ⟨hget, by rw [hget, joinRow_company_name]⟩

theorem claim_C9_witness :
    (normalize_private_data [companyARecord]).get
        ⟨0, by simp [normalize_private_data]⟩ = normalizeRecord companyARecord
    ∧ integrate_data "t" [normTechRecord] [techBenchmark]
        = [normTechRecord].map (joinRow "t" [techBenchmark]) :=
  ⟨(claim_C9_order_preserved.1 [companyARecord]).2 0
      (by simp [normalize_private_data]) (by simp),
   (claim_C9_order_preserved.2 "t" [normTechRecord] [techBenchmark]
      (by simp [techBenchmark])).1⟩

/-! ### Fan-out duplicate helpers -/

theorem toFinset_replicate_pos [DecidableEq α] (m : ℕ) (x : α) (h : 1 ≤ m) :
    (List.replicate m x).toFinset = {x} := by
  induction m with
  | zero => exact (Nat.not_succ_le_zero 0 h).elim
  | succ n ih =>
    rw [List.replicate_succ, List.toFinset_cons]
    by_cases hn : 1 ≤ n
    · rw [ih hn]
      simp
    · have hn0 : n = 0 := by omega
      subst hn0
      simp

theorem integrateOne_map_name (now : String) (B : List BenchmarkRecord)
    (p : NormalizedPrivateRecord) :
    ((integrateOne now B p).map fun r => r.company_name)
      = List.replicate (max (benchMatches p B).length 1) p.company_name := by
  unfold integrateOne
  by_cases hm : benchMatches p B = []
  · rw [if_pos hm, hm]
    rfl
  · rw [if_neg hm, List.map_map]
    have hlen : max (benchMatches p B).length 1 = (benchMatches p B).length := by
      have := List.length_pos.mpr hm
      omega
    rw [hlen]
    exact List.map_const' _ _

theorem integrate_names (now : String) (P : List NormalizedPrivateRecord)
    (B : List BenchmarkRecord) :
    ((integrate_data now P B).map fun r => r.company_name)
      = P.flatMap fun p =>
          List.replicate (max (benchMatches p B).length 1) p.company_name := by
  unfold integrate_data
  rw [List.map_flatMap]
  have hfun : (fun p => (integrateOne now B p).map fun r => r.company_name)
      = fun p => List.replicate (max (benchMatches p B).length 1) p.company_name :=
    funext fun p => integrateOne_map_name now B p
  rw [hfun]

theorem flatMap_replicate_toFinset (B : List BenchmarkRecord) :
    ∀ P : List NormalizedPrivateRecord,
    (P.flatMap fun p =>
        List.replicate (max (benchMatches p B).length 1) p.company_name).toFinset
      = (P.map fun p => p.company_name).toFinset := by
  intro P
  induction P with
  | nil => rfl
  | cons p ps ih =>
    rw [List.flatMap_cons, List.toFinset_append, ih, List.map_cons, List.toFinset_cons,
      toFinset_replicate_pos _ _ (le_max_right _ 1)]
    exact (Finset.insert_eq _ _).symm

theorem flatMap_replicate_length (B : List BenchmarkRecord) :
    ∀ P : List NormalizedPrivateRecord,
    (P.flatMap fun p =>
        List.replicate (max (benchMatches p B).length 1) p.company_name).length
      = (P.map fun p => max (benchMatches p B).length 1).sum := by
  intro P
  induction P with
  | nil => rfl
  | cons p ps ih =>
    rw [List.flatMap_cons, List.length_append, List.length_replicate, List.map_cons,
      List.sum_cons, ih]

/-! ### C10 — duplicates measure the joined output, not the raw batch -/

/-- C10: even with all company names unique in the private batch, a row
with `k` benchmark matches contributes `k - 1` fan-out copies to
`duplicate_companies`: the validator counts repeated names of the joined
output. -/
theorem claim_C10_fanout_duplicates (now : String) (P : List NormalizedPrivateRecord)
    (B : List BenchmarkRecord) (h : (P.map fun p => p.company_name).Nodup) :
    (validate_data (integrate_data now P B)).duplicate_companies
      = (P.map fun p => max (benchMatches p B).length 1 - 1).sum := by
  show duplicatedCount ((integrate_data now P B).map fun r => r.company_name) = _
  rw [integrate_names]
  have hdup := duplicatedCount_add_card
    (P.flatMap fun p => List.replicate (max (benchMatches p B).length 1) p.company_name)
  rw [flatMap_replicate_toFinset B P] at hdup
  have hcard : (P.map fun p => p.company_name).toFinset.card = P.length := by
    rw [List.card_toFinset, List.Nodup.dedup h, List.length_map]
  rw [hcard, flatMap_replicate_length B P] at hdup
  have hsub := sum_map_sub_one (P.map fun p => max (benchMatches p B).length 1)
    (by
      intro k hk
      obtain ⟨p, _, rfl⟩ := List.mem_map.mp hk
      exact le_max_right _ 1)
  rw [List.map_map] at hsub
  have hcomp : ((fun k => k - 1) ∘ fun p => max (benchMatches p B).length 1)
      = fun p => max (benchMatches p B).length 1 - 1 := rfl
  rw [hcomp] at hsub
  have hlenmap : (P.map fun p => max (benchMatches p B).length 1).length = P.length :=
    List.length_map _ _
  omega

theorem claim_C10_witness :
    (validate_data (integrate_data "t" [normTechRecord, normEstateRecord]
        [techBenchmark, techBenchmark2])).duplicate_companies
      = ([normTechRecord, normEstateRecord].map fun p =>
          max (benchMatches p [techBenchmark, techBenchmark2]).length 1 - 1).sum :=
  claim_C10_fanout_duplicates "t" _ _ (by
    simp [normTechRecord, normEstateRecord])

end ValuCompany
